import Mathlib

/-!
# Verification of the PSP22 fungible-token ledger (`src/lib.rs`)

Shallow embedding of the `psp_coin` ink! contract.  Machine integers
(`U256`) are modelled as `Nat` together with explicit bound checks
against `2 ^ 256`; `checked_add` returns `none` exactly when the sum
would not fit in 256 bits.  The `Mapping` storage is modelled as a total
function: `Mapping::get(k).unwrap_or(0)` corresponds to plain function
application (absent keys read as `0`, as in the source), and
`Mapping::insert` corresponds to `Function.update`.  The host-supplied
caller identity (`self.env().caller()`) is passed as an explicit
argument to every message.  Each message returns an `Outcome`: the
`Result` value (`none` = `Ok(())`), the storage as left by the function
body, and the list of events emitted during the call, in order.
-/

/-- Account identifiers (`H160` in the source) are opaque values with
decidable equality; we model them as `Nat`. -/
abbrev H160 := Nat

/-- `2 ^ 256`, one more than the largest representable `U256` value. -/
def U256size : Nat := 2 ^ 256

/-- `U256::checked_add`: `some (a + b)` when the sum fits in 256 bits,
`none` on overflow. -/
def checked_add (a b : Nat) : Option Nat :=
  if a + b < U256size then some (a + b) else none

/-- `PSP22Error` from `src/data.rs`. -/
inductive PSP22Error where
  | InsufficientBalance
  | InsufficientAllowance
  | Overflow
  | Custom (msg : String)
deriving DecidableEq, Repr

/-- Events emitted by the contract: `Transfer { from, to, value }` and
`Approval { owner, spender, value }` from `src/lib.rs`. -/
inductive Event where
  | Transfer (src dst : Option H160) (value : Nat)
  | Approval (owner spender : H160) (value : Nat)
deriving DecidableEq, Repr

/-- The contract storage (`#[ink(storage)] struct PspCoin`): total
supply, balance map, allowance map keyed by `(owner, spender)`, and the
static metadata triple. -/
structure PspCoin where
  total_supply : Nat
  balances : H160 → Nat
  allowances : H160 × H160 → Nat
  metadata : String × String × Nat

/-- Result of one message call: the returned `Result` (`none` for
`Ok(())`, `some e` for `Err(e)`), the storage after the function body
ran, and the events emitted during the call. -/
structure Outcome where
  result : Option PSP22Error
  state : PspCoin
  events : List Event

/-- `balance_of`: `self.balances.get(owner).unwrap_or(0)`. -/
def balance_of (s : PspCoin) (owner : H160) : Nat :=
  s.balances owner

/-- `allowance`: `self.allowances.get((owner, spender)).unwrap_or(0)`. -/
def allowance (s : PspCoin) (owner spender : H160) : Nat :=
  s.allowances (owner, spender)

/-- Internal helper `transfer_from_to` (`src/lib.rs` lines 80–114):
no-op when `from == to` or `value == 0`; `InsufficientBalance` when the
source balance is short; `Overflow` when the destination balance would
not fit; otherwise debit `from`, credit `to`, emit one `Transfer`. -/
def transfer_from_to (s : PspCoin) (src dst : H160) (value : Nat) : Outcome :=
  if src = dst ∨ value = 0 then ⟨none, s, []⟩
  else
    let from_balance := s.balances src
    if from_balance < value then ⟨some .InsufficientBalance, s, []⟩
    else
      let to_balance := s.balances dst
      match checked_add to_balance value with
      | none => ⟨some .Overflow, s, []⟩
      | some _ =>
        ⟨none,
         { s with balances :=
             (Function.update (Function.update s.balances src (from_balance - value))
               dst (to_balance + value)) },
         [Event.Transfer (some src) (some dst) value]⟩

/-- Message `transfer` (`src/lib.rs` lines 142–150): delegates to
`transfer_from_to` with the caller as source.  The `data` payload is
ignored by the source. -/
def transfer (s : PspCoin) (caller dst : H160) (value : Nat)
    (_data : List Nat) : Outcome :=
  transfer_from_to s caller dst value

/-- Message `transfer_from` (`src/lib.rs` lines 154–187): no-op when
`from == to` or `value == 0`; when the caller differs from `from`,
checks the allowance, then inserts the decremented allowance and emits
an `Approval` event *before* invoking `transfer_from_to`; the storage
and events of the inner call are taken as they stand even when it
returns an error. -/
def transfer_from (s : PspCoin) (caller src dst : H160) (value : Nat)
    (_data : List Nat) : Outcome :=
  if src = dst ∨ value = 0 then ⟨none, s, []⟩
  else if caller = src then transfer_from_to s src dst value
  else
    let allowance := s.allowances (src, caller)
    if allowance < value then ⟨some .InsufficientAllowance, s, []⟩
    else
      let s1 : PspCoin :=
        { s with allowances :=
            (Function.update s.allowances (src, caller) (allowance - value)) }
      let out := transfer_from_to s1 src dst value
      ⟨out.result, out.state,
       Event.Approval src caller (allowance - value) :: out.events⟩

/-- Message `approve` (`src/lib.rs` lines 191–208): no-op when the
caller equals the spender; otherwise overwrites the allowance entry and
emits an `Approval` event.  Never fails. -/
def approve (s : PspCoin) (caller spender : H160) (value : Nat) : Outcome :=
  if caller = spender then ⟨none, s, []⟩
  else
    ⟨none,
     { s with allowances := Function.update s.allowances (caller, spender) value },
     [Event.Approval caller spender value]⟩

/-- Message `increase_allowance` (`src/lib.rs` lines 212–241): no-op
when the caller equals the spender or the delta is zero; checked
addition with `Overflow` on failure; on success stores the new
allowance and emits `Approval` with it. -/
def increase_allowance (s : PspCoin) (caller spender : H160)
    (delta_value : Nat) : Outcome :=
  if caller = spender ∨ delta_value = 0 then ⟨none, s, []⟩
  else
    let current_allowance := s.allowances (caller, spender)
    match checked_add current_allowance delta_value with
    | none => ⟨some .Overflow, s, []⟩
    | some new_allowance =>
      ⟨none,
       { s with allowances :=
           (Function.update s.allowances (caller, spender) new_allowance) },
       [Event.Approval caller spender new_allowance]⟩

/-- Message `decrease_allowance` (`src/lib.rs` lines 245–276): no-op
when the caller equals the spender or the delta is zero;
`InsufficientAllowance` when the current allowance is below the delta;
otherwise stores `current - delta` and emits `Approval` with it. -/
def decrease_allowance (s : PspCoin) (caller spender : H160)
    (delta_value : Nat) : Outcome :=
  if caller = spender ∨ delta_value = 0 then ⟨none, s, []⟩
  else
    let current_allowance := s.allowances (caller, spender)
    if current_allowance < delta_value then ⟨some .InsufficientAllowance, s, []⟩
    else
      let new_allowance := current_allowance - delta_value
      ⟨none,
       { s with allowances :=
           (Function.update s.allowances (caller, spender) new_allowance) },
       [Event.Approval caller spender new_allowance]⟩

/-- Message `mint` (`src/lib.rs` lines 302–328): no-op when the value is
zero; both checked additions (caller balance, total supply) are
performed before any write; on success credits the caller, bumps the
supply and emits `Transfer { from: None, to: Some(caller) }`. -/
def mint (s : PspCoin) (caller : H160) (value : Nat) : Outcome :=
  if value = 0 then ⟨none, s, []⟩
  else
    let balance := s.balances caller
    match checked_add balance value with
    | none => ⟨some .Overflow, s, []⟩
    | some new_balance =>
      match checked_add s.total_supply value with
      | none => ⟨some .Overflow, s, []⟩
      | some new_supply =>
        ⟨none,
         { s with balances := Function.update s.balances caller new_balance,
                  total_supply := new_supply },
         [Event.Transfer none (some caller) value]⟩

/-- Message `burn` (`src/lib.rs` lines 334–357): no-op when the value is
zero; `InsufficientBalance` when the caller's balance is short;
otherwise debits the caller and subtracts from the total supply with an
*unchecked* subtraction, emitting `Transfer { to: None }`. -/
def burn (s : PspCoin) (caller : H160) (value : Nat) : Outcome :=
  if value = 0 then ⟨none, s, []⟩
  else
    let balance := s.balances caller
    if balance < value then ⟨some .InsufficientBalance, s, []⟩
    else
      ⟨none,
       { s with balances := Function.update s.balances caller (balance - value),
                total_supply := s.total_supply - value },
       [Event.Transfer (some caller) none value]⟩

/-- `balance_of` unfolds to the balance map. -/
@[simp] lemma balance_of_def (s : PspCoin) (owner : H160) :
    balance_of s owner = s.balances owner := rfl

/-- `allowance` unfolds to the allowance map. -/
@[simp] lemma allowance_def (s : PspCoin) (owner spender : H160) :
    allowance s owner spender = s.allowances (owner, spender) := rfl

/-- A small concrete ledger used to witness the theorems: account `0`
holds the whole supply of `5`, and owner `1` has granted spender `2` an
allowance of `10` (note the allowance exceeds the owner's balance of
`0`, which the storage comment in the source explicitly contemplates). -/
def exState : PspCoin where
  total_supply := 5
  balances := fun a => if a = 0 then 5 else 0
  allowances := fun k => if k = (1, 2) then 10 else 0
  metadata := ("MemeCoin", "MEME", 18)

/-- Claim C9: `transfer` to self (any value) and `transfer` of value `0`
(any recipient) return success, leave the whole storage — total supply,
every balance entry, every allowance entry — exactly as it was, and emit
no event. -/
theorem transfer_noop_exact (s : PspCoin) (caller X : H160) (v : Nat)
    (d d' : List Nat) :
    transfer s caller caller v d = ⟨none, s, []⟩ ∧
    transfer s caller X 0 d' = ⟨none, s, []⟩ := by
  constructor <;> simp [transfer, transfer_from_to]

/-- Claim C5: `approve` always returns success, and two successive
approvals for the same spender leave exactly the second value — an
absolute overwrite, not an addition. -/
theorem approve_always_ok_and_overwrites (s : PspCoin) (owner spender : H160)
    (v v1 v2 : Nat) (h : spender ≠ owner) :
    (approve s owner spender v).result = none ∧
    allowance (approve (approve s owner spender v1).state owner spender v2).state
      owner spender = v2 := by
  constructor
  · unfold approve; split <;> rfl
  · simp [approve, Ne.symm h]

/-- Witness for C5 at the concrete ledger `exState`. -/
theorem approve_always_ok_and_overwrites_witness :
    (approve exState 1 2 7).result = none ∧
    allowance (approve (approve exState 1 2 3).state 1 2 7).state 1 2 = 7 :=
  approve_always_ok_and_overwrites exState 1 2 7 3 7 (by decide)

/-- Claim C3: when the caller is not the owner, `from ≠ to`, the value is
nonzero, and both the allowance and the owner's balance are below the
value, `transfer_from` returns `InsufficientAllowance`: the allowance
check is evaluated before the balance check, and nothing is mutated. -/
theorem transfer_from_allowance_precedence (s : PspCoin) (caller src dst : H160)
    (value : Nat) (d : List Nat) (hc : caller ≠ src) (hst : src ≠ dst)
    (hv : value ≠ 0) (hall : allowance s src caller < value)
    (hbal : balance_of s src < value) :
    transfer_from s caller src dst value d = ⟨some .InsufficientAllowance, s, []⟩ := by
  simp only [allowance_def] at hall
  unfold transfer_from
  rw [if_neg (by simp [hst, hv]), if_neg hc, if_pos hall]

/-- Witness for C3 at the concrete ledger `exState`: spender `2` has
allowance `10 < 20` and owner `1` has balance `0 < 20`. -/
theorem transfer_from_allowance_precedence_witness :
    transfer_from exState 2 1 3 20 [] = ⟨some .InsufficientAllowance, exState, []⟩ :=
  transfer_from_allowance_precedence exState 2 1 3 20 [] (by decide) (by decide)
    (by decide) (by decide) (by decide)

/-- Claim C1 fails on the code: `transfer_from` writes the decremented
allowance and emits the `Approval` event *before* the balance and
overflow checks of `transfer_from_to`.  At the concrete ledger
`exState`, caller `2` invokes `transfer_from(from := 1, to := 3,
value := 10)`: owner `1` has balance `0`, so the call returns
`InsufficientBalance`, yet the allowance of `(1, 2)` has been overwritten
from `10` to `0` and an `Approval` event has been emitted — the ledger
state is not the starting state and a notification was emitted. -/
theorem transfer_from_error_still_writes_allowance :
    (transfer_from exState 2 1 3 10 []).result = some PSP22Error.InsufficientBalance ∧
    allowance exState 1 2 = 10 ∧
    allowance (transfer_from exState 2 1 3 10 []).state 1 2 = 0 ∧
    (transfer_from exState 2 1 3 10 []).events = [Event.Approval 1 2 0] := by
  refine ⟨?_, ?_, ?_, ?_⟩ <;> decide

/-- Claim C10: `approve`, `increase_allowance` and `decrease_allowance`
— on every path: no-op, success or failure — keep the total supply and
the whole balance map unchanged and modify at most the single allowance
entry keyed by `(caller, spender)`. -/
lemma approve_frame (s : PspCoin) (caller spender : H160) (v : Nat) :
    (approve s caller spender v).state.total_supply = s.total_supply ∧
    (approve s caller spender v).state.balances = s.balances ∧
    ∀ k, k ≠ (caller, spender) →
      (approve s caller spender v).state.allowances k = s.allowances k := by
  by_cases h : caller = spender
  · simp [approve, h]
  · refine ⟨?_, ?_, fun k hk => ?_⟩ <;>
      simp [approve, h, Function.update_noteq]
    exact Function.update_noteq hk _ _

lemma increase_allowance_frame (s : PspCoin) (caller spender : H160) (v : Nat) :
    (increase_allowance s caller spender v).state.total_supply = s.total_supply ∧
    (increase_allowance s caller spender v).state.balances = s.balances ∧
    ∀ k, k ≠ (caller, spender) →
      (increase_allowance s caller spender v).state.allowances k = s.allowances k := by
  by_cases h1 : caller = spender ∨ v = 0
  · simp [increase_allowance, h1]
  · cases h2 : checked_add (s.allowances (caller, spender)) v with
    | none => simp [increase_allowance, h1, h2]
    | some na =>
      refine ⟨?_, ?_, fun k hk => ?_⟩ <;>
        simp [increase_allowance, h1, h2]
      exact Function.update_noteq hk _ _

lemma decrease_allowance_frame (s : PspCoin) (caller spender : H160) (v : Nat) :
    (decrease_allowance s caller spender v).state.total_supply = s.total_supply ∧
    (decrease_allowance s caller spender v).state.balances = s.balances ∧
    ∀ k, k ≠ (caller, spender) →
      (decrease_allowance s caller spender v).state.allowances k = s.allowances k := by
  by_cases h1 : caller = spender ∨ v = 0
  · simp [decrease_allowance, h1]
  · by_cases h2 : s.allowances (caller, spender) < v
    · simp [decrease_allowance, h1, h2]
    · refine ⟨?_, ?_, fun k hk => ?_⟩ <;>
        simp [decrease_allowance, h1, h2]
      exact Function.update_noteq hk _ _

theorem allowance_ops_frame (s : PspCoin) (caller spender : H160) (v : Nat) :
    ((approve s caller spender v).state.total_supply = s.total_supply ∧
     (approve s caller spender v).state.balances = s.balances ∧
     ∀ k, k ≠ (caller, spender) →
       (approve s caller spender v).state.allowances k = s.allowances k) ∧
    ((increase_allowance s caller spender v).state.total_supply = s.total_supply ∧
     (increase_allowance s caller spender v).state.balances = s.balances ∧
     ∀ k, k ≠ (caller, spender) →
       (increase_allowance s caller spender v).state.allowances k = s.allowances k) ∧
    ((decrease_allowance s caller spender v).state.total_supply = s.total_supply ∧
     (decrease_allowance s caller spender v).state.balances = s.balances ∧
     ∀ k, k ≠ (caller, spender) →
       (decrease_allowance s caller spender v).state.allowances k = s.allowances k) := by
  exact ⟨approve_frame s caller spender v, increase_allowance_frame s caller spender v,
    decrease_allowance_frame s caller spender v⟩

/-- Witness for C10 at the concrete ledger `exState`: the key `(5, 6)`
differs from `(1, 2)`, so the `approve` by caller `1` leaves it alone. -/
theorem allowance_ops_frame_witness :
    (approve exState 1 2 9).state.allowances (5, 6) = exState.allowances (5, 6) := by
  have h := (allowance_ops_frame exState 1 2 9).1.2.2 (5, 6) (by decide)
  exact h

/-- Claim C4: for `from ≠ to` and nonzero value, the internal transfer
fails with `InsufficientBalance` when the source balance is short, else
fails with `Overflow` when the credited balance would exceed the `U256`
maximum, and otherwise succeeds, debits `from` by the value, credits
`to` by the value, changes nothing else, and emits exactly one
`Transfer {from: Some from, to: Some to, value}`; `transfer` is exactly
the internal transfer with the caller as source. -/
theorem transfer_from_to_spec (s : PspCoin) (src dst : H160) (value : Nat)
    (hne : src ≠ dst) (hv : value ≠ 0) :
    (balance_of s src < value →
      transfer_from_to s src dst value = ⟨some .InsufficientBalance, s, []⟩) ∧
    (value ≤ balance_of s src → U256size ≤ balance_of s dst + value →
      transfer_from_to s src dst value = ⟨some .Overflow, s, []⟩) ∧
    (value ≤ balance_of s src → balance_of s dst + value < U256size →
      (transfer_from_to s src dst value).result = none ∧
      (transfer_from_to s src dst value).state.balances src
        = balance_of s src - value ∧
      (transfer_from_to s src dst value).state.balances dst
        = balance_of s dst + value ∧
      (∀ a, a ≠ src → a ≠ dst →
        (transfer_from_to s src dst value).state.balances a = s.balances a) ∧
      (transfer_from_to s src dst value).state.total_supply = s.total_supply ∧
      (transfer_from_to s src dst value).state.allowances = s.allowances ∧
      (transfer_from_to s src dst value).events
        = [Event.Transfer (some src) (some dst) value]) ∧
    (∀ (s1 : PspCoin) (caller dst1 : H160) (v1 : Nat) (d : List Nat),
      transfer s1 caller dst1 v1 d = transfer_from_to s1 caller dst1 v1) := by
  refine ⟨fun h1 => ?_, fun h1 h2 => ?_, fun h1 h2 => ?_,
    fun s1 caller dst1 v1 d => rfl⟩
  · simp only [balance_of_def] at h1
    simp [transfer_from_to, hne, hv, h1]
  · simp only [balance_of_def] at h1 h2
    have h1' : ¬ (s.balances src < value) := Nat.not_lt.mpr h1
    have h2' : ¬ (s.balances dst + value < U256size) := Nat.not_lt.mpr h2
    simp [transfer_from_to, checked_add, hne, hv, h1', h2']
  · simp only [balance_of_def] at h1 h2
    have h1' : ¬ (s.balances src < value) := Nat.not_lt.mpr h1
    have key : transfer_from_to s src dst value =
        ⟨none,
         { s with balances :=
             (Function.update (Function.update s.balances src (s.balances src - value))
               dst (s.balances dst + value)) },
         [Event.Transfer (some src) (some dst) value]⟩ := by
      simp [transfer_from_to, checked_add, hne, hv, h1', h2]
    refine ⟨by rw [key], ?_, ?_, fun a ha1 ha2 => ?_, by rw [key], by rw [key],
      by rw [key]⟩
    · rw [key]
      simp [Function.update_noteq hne]
    · rw [key]
      simp
    · rw [key]
      simp [Function.update_noteq ha1, Function.update_noteq ha2]

/-- Witness for C4 at the concrete ledger `exState`: account `0` holds
`5`, so transferring `3` to account `1` succeeds with balances `2` and
`3`. -/
theorem transfer_from_to_spec_witness :
    (transfer_from_to exState 0 1 3).result = none ∧
    (transfer_from_to exState 0 1 3).state.balances 0 = 2 ∧
    (transfer_from_to exState 0 1 3).state.balances 1 = 3 := by
  have h := (transfer_from_to_spec exState 0 1 3 (by decide) (by decide)).2.2.1
    (by decide) (by decide)
  refine ⟨h.1, ?_, ?_⟩
  · have := h.2.1
    simpa [exState] using this
  · have := h.2.2.1
    simpa [exState] using this

/-- Claim C6: for nonzero value, `mint` fails with `Overflow` — mutating
nothing and emitting nothing — when crediting the caller's balance or
the total supply would exceed the `U256` maximum (both checks precede
any write); otherwise it succeeds, increases exactly the caller's
balance and the total supply by the value, and emits one
`Transfer {from: None, to: Some caller, value}`. -/
theorem mint_spec (s : PspCoin) (caller : H160) (value : Nat) (hv : value ≠ 0) :
    ((U256size ≤ balance_of s caller + value ∨ U256size ≤ s.total_supply + value) →
      mint s caller value = ⟨some .Overflow, s, []⟩) ∧
    (balance_of s caller + value < U256size → s.total_supply + value < U256size →
      (mint s caller value).result = none ∧
      (mint s caller value).state.balances caller = balance_of s caller + value ∧
      (∀ a, a ≠ caller → (mint s caller value).state.balances a = s.balances a) ∧
      (mint s caller value).state.total_supply = s.total_supply + value ∧
      (mint s caller value).state.allowances = s.allowances ∧
      (mint s caller value).events = [Event.Transfer none (some caller) value]) := by
  constructor
  · rintro (h | h)
    · simp only [balance_of_def] at h
      have h' : ¬ (s.balances caller + value < U256size) := Nat.not_lt.mpr h
      simp [mint, checked_add, hv, h']
    · have h' : ¬ (s.total_supply + value < U256size) := Nat.not_lt.mpr h
      by_cases hb : s.balances caller + value < U256size
      · simp [mint, checked_add, hv, hb, h']
      · simp [mint, checked_add, hv, hb]
  · intro hb ht
    simp only [balance_of_def] at hb
    have key : mint s caller value =
        ⟨none,
         { s with balances := Function.update s.balances caller (s.balances caller + value),
                  total_supply := s.total_supply + value },
         [Event.Transfer none (some caller) value]⟩ := by
      simp [mint, checked_add, hv, hb, ht]
    refine ⟨by rw [key], ?_, fun a ha => ?_, by rw [key], by rw [key], by rw [key]⟩
    · rw [key]
      simp
    · rw [key]
      simp [Function.update_noteq ha]

/-- Witness for C6 at the concrete ledger `exState`: caller `0` mints
`7`, ending with balance `12` and total supply `12`. -/
theorem mint_spec_witness :
    (mint exState 0 7).result = none ∧
    (mint exState 0 7).state.balances 0 = 12 ∧
    (mint exState 0 7).state.total_supply = 12 := by
  have h := (mint_spec exState 0 7 (by decide)).2 (by decide) (by decide)
  refine ⟨h.1, ?_, ?_⟩
  · have := h.2.1
    simpa [exState] using this
  · have := h.2.2.2.1
    simpa [exState] using this

/-- Claim C8: with a spender distinct from the caller and a current
allowance of `100`, `increase_allowance(spender, 50)` succeeds (checked
addition) leaving exactly `150`, after which
`decrease_allowance(spender, 200)` fails with `InsufficientAllowance`
and the allowance stays `150`; in general, for a nonzero delta,
`decrease_allowance` fails with `InsufficientAllowance` iff the current
allowance is below the delta (leaving the storage untouched), and
otherwise succeeds storing `current - delta`. -/
theorem increase_decrease_allowance_spec (s : PspCoin) (caller spender : H160)
    (hsp : spender ≠ caller) :
    (allowance s caller spender = 100 →
      (increase_allowance s caller spender 50).result = none ∧
      allowance (increase_allowance s caller spender 50).state caller spender = 150 ∧
      (decrease_allowance (increase_allowance s caller spender 50).state
        caller spender 200).result = some .InsufficientAllowance ∧
      allowance (decrease_allowance (increase_allowance s caller spender 50).state
        caller spender 200).state caller spender = 150) ∧
    (∀ delta, delta ≠ 0 →
      ((decrease_allowance s caller spender delta).result
          = some .InsufficientAllowance ↔ allowance s caller spender < delta) ∧
      (allowance s caller spender < delta →
        (decrease_allowance s caller spender delta).state = s ∧
        (decrease_allowance s caller spender delta).events = []) ∧
      (delta ≤ allowance s caller spender →
        (decrease_allowance s caller spender delta).result = none ∧
        allowance (decrease_allowance s caller spender delta).state caller spender
          = allowance s caller spender - delta)) := by
  have hcs : caller ≠ spender := Ne.symm hsp
  constructor
  · intro h100
    simp only [allowance_def] at h100
    have key : increase_allowance s caller spender 50 =
        ⟨none,
         { s with allowances := Function.update s.allowances (caller, spender) 150 },
         [Event.Approval caller spender 150]⟩ := by
      norm_num [increase_allowance, checked_add, hcs, h100, U256size]
    rw [key]
    norm_num [decrease_allowance, hcs]
  · intro delta hd
    simp only [allowance_def]
    by_cases hlt : s.allowances (caller, spender) < delta
    · refine ⟨by simp [decrease_allowance, hcs, hd, hlt], fun _ => ?_, fun hge => ?_⟩
      · constructor <;> simp [decrease_allowance, hcs, hd, hlt]
      · omega
    · refine ⟨by simp [decrease_allowance, hcs, hd, hlt], fun hcon => ?_, fun hge => ?_⟩
      · omega
      · constructor <;> simp [decrease_allowance, hcs, hd, hlt]

/-- Witness for C8 at the concrete ledger: owner `1` has granted spender
`2` an allowance of... `10`; we first reset it to `100` with `approve`
and then run the scenario of the claim. -/
theorem increase_decrease_allowance_spec_witness :
    (increase_allowance (approve exState 1 2 100).state 1 2 50).result = none ∧
    allowance (increase_allowance (approve exState 1 2 100).state 1 2 50).state 1 2
      = 150 ∧
    (decrease_allowance
      (increase_allowance (approve exState 1 2 100).state 1 2 50).state 1 2 200).result
      = some .InsufficientAllowance := by
  have h := (increase_decrease_allowance_spec (approve exState 1 2 100).state 1 2
    (by decide)).1 (by decide)
  exact ⟨h.1, h.2.1, h.2.2.1⟩

lemma sum_split_two (S : Finset H160) (f : H160 → Nat) (x y : H160)
    (hx : x ∈ S) (hy : y ∈ S) (hxy : x ≠ y) :
    ∑ i in S, f i = f x + f y + ∑ i in (S.erase y).erase x, f i := by
  rw [← Finset.add_sum_erase S f hy,
    ← Finset.add_sum_erase (S.erase y) f (Finset.mem_erase.mpr ⟨hxy, hx⟩)]
  ring

lemma sum_update_update (S : Finset H160) (f : H160 → Nat) (x y : H160)
    (hx : x ∈ S) (hy : y ∈ S) (hxy : x ≠ y) (a b : Nat) :
    ∑ i in S, Function.update (Function.update f x a) y b i
      = a + b + ∑ i in (S.erase y).erase x, f i := by
  simp only [Finset.erase_eq]
  rw [Finset.sum_update_of_mem hy,
    Finset.sum_update_of_mem (Finset.mem_sdiff.mpr ⟨hx, by simp [hxy]⟩)]
  ring

lemma sum_update_one (S : Finset H160) (f : H160 → Nat) (x : H160)
    (hx : x ∈ S) (a : Nat) :
    ∑ i in S, Function.update f x a i = a + ∑ i in S.erase x, f i := by
  rw [Finset.erase_eq]
  exact Finset.sum_update_of_mem hx f a

/-- A successful internal transfer between members of `S` preserves the
balance sum over `S`, the total supply, and every balance outside `S`. -/
lemma transfer_from_to_conserves (s : PspCoin) (src dst : H160) (value : Nat)
    (S : Finset H160) (hsrc : src ∈ S) (hdst : dst ∈ S)
    (h : (transfer_from_to s src dst value).result = none) :
    (∑ a in S, (transfer_from_to s src dst value).state.balances a
      = ∑ a in S, s.balances a) ∧
    (transfer_from_to s src dst value).state.total_supply = s.total_supply ∧
    (∀ a, a ∉ S → (transfer_from_to s src dst value).state.balances a
      = s.balances a) := by
  by_cases h0 : src = dst ∨ value = 0
  · simp [transfer_from_to, h0]
  · push_neg at h0
    obtain ⟨hne, hv⟩ := h0
    by_cases hb : s.balances src < value
    · exfalso
      simp [transfer_from_to, hne, hv, hb] at h
    · cases hov : checked_add (s.balances dst) value with
      | none =>
        exfalso
        simp [transfer_from_to, hne, hv, hb, hov] at h
      | some w =>
        have key : transfer_from_to s src dst value =
            ⟨none,
             { s with balances :=
                 (Function.update
                   (Function.update s.balances src (s.balances src - value))
                   dst (s.balances dst + value)) },
             [Event.Transfer (some src) (some dst) value]⟩ := by
          simp [transfer_from_to, hne, hv, hb, hov]
        rw [key]
        refine ⟨?_, rfl, fun a ha => ?_⟩
        · rw [sum_update_update S s.balances src dst hsrc hdst hne,
            sum_split_two S s.balances src dst hsrc hdst hne]
          omega
        · have ha1 : a ≠ src := fun e => ha (e ▸ hsrc)
          have ha2 : a ≠ dst := fun e => ha (e ▸ hdst)
          simp [Function.update_noteq ha1, Function.update_noteq ha2]

/-- A successful `transfer_from` between members of `S` preserves the
balance sum over `S`, the total supply, and every balance outside `S`
(the allowance write never touches balances). -/
lemma transfer_from_conserves (s : PspCoin) (caller src dst : H160) (value : Nat)
    (d : List Nat) (S : Finset H160) (hsrc : src ∈ S) (hdst : dst ∈ S)
    (h : (transfer_from s caller src dst value d).result = none) :
    (∑ a in S, (transfer_from s caller src dst value d).state.balances a
      = ∑ a in S, s.balances a) ∧
    (transfer_from s caller src dst value d).state.total_supply = s.total_supply ∧
    (∀ a, a ∉ S → (transfer_from s caller src dst value d).state.balances a
      = s.balances a) := by
  by_cases h0 : src = dst ∨ value = 0
  · simp [transfer_from, h0]
  · by_cases hc : caller = src
    · have e : transfer_from s caller src dst value d
          = transfer_from_to s src dst value := by
        simp [transfer_from, h0, hc]
      rw [e] at h ⊢
      exact transfer_from_to_conserves s src dst value S hsrc hdst h
    · by_cases hlt : s.allowances (src, caller) < value
      · exfalso
        simp [transfer_from, h0, hc, hlt] at h
      · have e : transfer_from s caller src dst value d =
            ⟨(transfer_from_to
                { s with allowances :=
                    (Function.update s.allowances (src, caller)
                      (s.allowances (src, caller) - value)) } src dst value).result,
             (transfer_from_to
                { s with allowances :=
                    (Function.update s.allowances (src, caller)
                      (s.allowances (src, caller) - value)) } src dst value).state,
             Event.Approval src caller (s.allowances (src, caller) - value) ::
              (transfer_from_to
                { s with allowances :=
                    (Function.update s.allowances (src, caller)
                      (s.allowances (src, caller) - value)) } src dst value).events⟩ := by
          simp [transfer_from, h0, hc, hlt]
        rw [e] at h ⊢
        obtain ⟨hsum, hsupply, hout⟩ := transfer_from_to_conserves
          { s with allowances :=
              (Function.update s.allowances (src, caller)
                (s.allowances (src, caller) - value)) } src dst value S hsrc hdst h
        exact ⟨hsum, hsupply, hout⟩

/-- A successful `mint` by a member of `S` adds exactly the minted value
to the balance sum over `S` and to the total supply, and leaves every
balance outside `S` unchanged. -/
lemma mint_conserves (s : PspCoin) (caller : H160) (value : Nat)
    (S : Finset H160) (hc : caller ∈ S)
    (h : (mint s caller value).result = none) :
    (∑ a in S, (mint s caller value).state.balances a
      = (∑ a in S, s.balances a) + value) ∧
    (mint s caller value).state.total_supply = s.total_supply + value ∧
    (∀ a, a ∉ S → (mint s caller value).state.balances a = s.balances a) := by
  by_cases hv : value = 0
  · simp [mint, hv]
  · cases h1 : checked_add (s.balances caller) value with
    | none =>
      exfalso
      simp [mint, hv, h1] at h
    | some nb =>
      cases h2 : checked_add s.total_supply value with
      | none =>
        exfalso
        simp [mint, hv, h1, h2] at h
      | some ns =>
        have hb : nb = s.balances caller + value := by
          by_cases hlt : s.balances caller + value < U256size
          · simp [checked_add, hlt] at h1
            omega
          · simp [checked_add, hlt] at h1
        have hs : ns = s.total_supply + value := by
          by_cases hlt : s.total_supply + value < U256size
          · simp [checked_add, hlt] at h2
            omega
          · simp [checked_add, hlt] at h2
        have key : mint s caller value =
            ⟨none,
             { s with balances := Function.update s.balances caller nb,
                      total_supply := ns },
             [Event.Transfer none (some caller) value]⟩ := by
          simp [mint, hv, h1, h2]
        rw [key, hb, hs]
        refine ⟨?_, rfl, fun a ha => ?_⟩
        · rw [sum_update_one S s.balances caller hc,
            ← Finset.add_sum_erase S s.balances hc]
          ring
        · have ha1 : a ≠ caller := fun e => ha (e ▸ hc)
          simp [Function.update_noteq ha1]

/-- A successful `burn` by a member of `S` removes exactly the burned
value from the balance sum over `S`, subtracts it (as truncated `Nat`
subtraction, matching the unchecked `U256` subtraction of the source)
from the total supply, and leaves every balance outside `S` unchanged;
the burned value is bounded by the caller's balance. -/
lemma burn_conserves (s : PspCoin) (caller : H160) (value : Nat)
    (S : Finset H160) (hc : caller ∈ S)
    (h : (burn s caller value).result = none) :
    ((∑ a in S, (burn s caller value).state.balances a) + value
      = ∑ a in S, s.balances a) ∧
    (burn s caller value).state.total_supply = s.total_supply - value ∧
    value ≤ s.balances caller ∧
    (∀ a, a ∉ S → (burn s caller value).state.balances a = s.balances a) := by
  by_cases hv : value = 0
  · simp [burn, hv]
  · by_cases hb : s.balances caller < value
    · exfalso
      simp [burn, hv, hb] at h
    · have key : burn s caller value =
          ⟨none,
           { s with balances :=
               Function.update s.balances caller (s.balances caller - value),
                    total_supply := s.total_supply - value },
           [Event.Transfer (some caller) none value]⟩ := by
        simp [burn, hv, hb]
      rw [key]
      refine ⟨?_, rfl, Nat.not_lt.mp hb, fun a ha => ?_⟩
      · rw [sum_update_one S s.balances caller hc,
          ← Finset.add_sum_erase S s.balances hc]
        omega
      · have ha1 : a ≠ caller := fun e => ha (e ▸ hc)
        simp [Function.update_noteq ha1]

/-- Claim C2: conservation of supply.  For any state whose balances sum
to the total supply (over a finite set `S` covering every account with a
nonzero balance), every successful `transfer`, `transfer_from`,
`approve`, `increase_allowance` and `decrease_allowance` keeps the
balance sum unchanged and equal to the total supply, and every
successful `mint` (resp. `burn`) changes both the balance sum and the
total supply by exactly the minted (resp. burned) value, so the
invariant `sum(balances) = total_supply` holds after every successful
operation. -/
theorem conservation_of_supply (s : PspCoin) (S : Finset H160)
    (hS : ∀ a, a ∉ S → s.balances a = 0)
    (hsum : ∑ a in S, s.balances a = s.total_supply) :
    (∀ caller dst v d, caller ∈ S → dst ∈ S →
      (transfer s caller dst v d).result = none →
      (∑ a in S, (transfer s caller dst v d).state.balances a
        = ∑ a in S, s.balances a) ∧
      (transfer s caller dst v d).state.total_supply = s.total_supply ∧
      (∀ a, a ∉ S → (transfer s caller dst v d).state.balances a = 0) ∧
      ∑ a in S, (transfer s caller dst v d).state.balances a
        = (transfer s caller dst v d).state.total_supply) ∧
    (∀ caller src dst v d, src ∈ S → dst ∈ S →
      (transfer_from s caller src dst v d).result = none →
      (∑ a in S, (transfer_from s caller src dst v d).state.balances a
        = ∑ a in S, s.balances a) ∧
      (transfer_from s caller src dst v d).state.total_supply = s.total_supply ∧
      (∀ a, a ∉ S → (transfer_from s caller src dst v d).state.balances a = 0) ∧
      ∑ a in S, (transfer_from s caller src dst v d).state.balances a
        = (transfer_from s caller src dst v d).state.total_supply) ∧
    (∀ caller spender v, (approve s caller spender v).result = none →
      (approve s caller spender v).state.balances = s.balances ∧
      (approve s caller spender v).state.total_supply = s.total_supply ∧
      ∑ a in S, (approve s caller spender v).state.balances a
        = (approve s caller spender v).state.total_supply) ∧
    (∀ caller spender v, (increase_allowance s caller spender v).result = none →
      (increase_allowance s caller spender v).state.balances = s.balances ∧
      (increase_allowance s caller spender v).state.total_supply = s.total_supply ∧
      ∑ a in S, (increase_allowance s caller spender v).state.balances a
        = (increase_allowance s caller spender v).state.total_supply) ∧
    (∀ caller spender v, (decrease_allowance s caller spender v).result = none →
      (decrease_allowance s caller spender v).state.balances = s.balances ∧
      (decrease_allowance s caller spender v).state.total_supply = s.total_supply ∧
      ∑ a in S, (decrease_allowance s caller spender v).state.balances a
        = (decrease_allowance s caller spender v).state.total_supply) ∧
    (∀ caller v, caller ∈ S → (mint s caller v).result = none →
      (∑ a in S, (mint s caller v).state.balances a
        = (∑ a in S, s.balances a) + v) ∧
      (mint s caller v).state.total_supply = s.total_supply + v ∧
      (∀ a, a ∉ S → (mint s caller v).state.balances a = 0) ∧
      ∑ a in S, (mint s caller v).state.balances a
        = (mint s caller v).state.total_supply) ∧
    (∀ caller v, caller ∈ S → (burn s caller v).result = none →
      ((∑ a in S, (burn s caller v).state.balances a) + v
        = ∑ a in S, s.balances a) ∧
      (burn s caller v).state.total_supply + v = s.total_supply ∧
      (∀ a, a ∉ S → (burn s caller v).state.balances a = 0) ∧
      ∑ a in S, (burn s caller v).state.balances a
        = (burn s caller v).state.total_supply) := by
  refine ⟨?_, ?_, ?_, ?_, ?_, ?_, ?_⟩
  · intro caller dst v d hc hd h
    rw [show transfer s caller dst v d = transfer_from_to s caller dst v from rfl]
      at h ⊢
    obtain ⟨h1, h2, h3⟩ := transfer_from_to_conserves s caller dst v S hc hd h
    exact ⟨h1, h2, fun a ha => by rw [h3 a ha]; exact hS a ha, by omega⟩
  · intro caller src dst v d hc hd h
    obtain ⟨h1, h2, h3⟩ := transfer_from_conserves s caller src dst v d S hc hd h
    exact ⟨h1, h2, fun a ha => by rw [h3 a ha]; exact hS a ha, by omega⟩
  · intro caller spender v _
    obtain ⟨hts, hbal, _⟩ := approve_frame s caller spender v
    rw [hbal, hts]
    exact ⟨rfl, rfl, hsum⟩
  · intro caller spender v _
    obtain ⟨hts, hbal, _⟩ := increase_allowance_frame s caller spender v
    rw [hbal, hts]
    exact ⟨rfl, rfl, hsum⟩
  · intro caller spender v _
    obtain ⟨hts, hbal, _⟩ := decrease_allowance_frame s caller spender v
    rw [hbal, hts]
    exact ⟨rfl, rfl, hsum⟩
  · intro caller v hc h
    obtain ⟨h1, h2, h3⟩ := mint_conserves s caller v S hc h
    exact ⟨h1, h2, fun a ha => by rw [h3 a ha]; exact hS a ha, by omega⟩
  · intro caller v hc h
    obtain ⟨h1, h2, hv, h3⟩ := burn_conserves s caller v S hc h
    have hle : s.balances caller ≤ ∑ a in S, s.balances a :=
      Finset.single_le_sum (fun i _ => Nat.zero_le _) hc
    exact ⟨h1, by omega, fun a ha => by rw [h3 a ha]; exact hS a ha, by omega⟩

/-- Witness for C2 at the concrete ledger `exState` with
`S = {0, 1, 2, 3}`: after the successful `transfer` of `3` from account
`0` to account `1`, the balances still sum to the total supply. -/
theorem conservation_of_supply_witness :
    ∑ a in ({0, 1, 2, 3} : Finset H160),
      (transfer exState 0 1 3 []).state.balances a
      = (transfer exState 0 1 3 []).state.total_supply := by
  have hS : ∀ a, a ∉ ({0, 1, 2, 3} : Finset H160) → exState.balances a = 0 := by
    intro a ha
    have h0 : a ≠ 0 := by rintro rfl; simp at ha
    simp [exState, h0]
  have hsum : ∑ a in ({0, 1, 2, 3} : Finset H160), exState.balances a
      = exState.total_supply := by decide
  exact ((conservation_of_supply exState {0, 1, 2, 3} hS hsum).1 0 1 3 []
    (by decide) (by decide) (by decide)).2.2.2

/-- Claim C7: under the supply invariant, the unchecked subtraction
`total_supply - value` in `burn` never underflows: when the caller's
balance covers the burned value, the value is bounded by the total
supply, so `burn`'s success branch subtracts without truncation. -/
theorem burn_supply_no_underflow (s : PspCoin) (S : Finset H160) (caller : H160)
    (value : Nat) (hS : ∀ a, a ∉ S → s.balances a = 0)
    (hsum : ∑ a in S, s.balances a = s.total_supply)
    (hv : value ≠ 0) (hbal : value ≤ balance_of s caller) :
    value ≤ s.total_supply ∧
    (burn s caller value).state.total_supply + value = s.total_supply := by
  simp only [balance_of_def] at hbal
  have hc : caller ∈ S := by
    by_contra hcn
    have := hS caller hcn
    omega
  have hle : s.balances caller ≤ ∑ a in S, s.balances a :=
    Finset.single_le_sum (fun i _ => Nat.zero_le _) hc
  have hvs : value ≤ s.total_supply := by omega
  refine ⟨hvs, ?_⟩
  have hb : ¬ (s.balances caller < value) := Nat.not_lt.mpr hbal
  have key : (burn s caller value).state.total_supply
      = s.total_supply - value := by
    simp [burn, hv, hb]
  omega

/-- Witness for C7 at the concrete ledger `exState` with
`S = {0, 1, 2, 3}`: burning the full balance `5` of account `0` is
covered by the total supply `5`. -/
theorem burn_supply_no_underflow_witness :
    5 ≤ exState.total_supply ∧
    (burn exState 0 5).state.total_supply + 5 = exState.total_supply := by
  have hS : ∀ a, a ∉ ({0, 1, 2, 3} : Finset H160) → exState.balances a = 0 := by
    intro a ha
    have h0 : a ≠ 0 := by rintro rfl; simp at ha
    simp [exState, h0]
  have hsum : ∑ a in ({0, 1, 2, 3} : Finset H160), exState.balances a
      = exState.total_supply := by decide
  exact burn_supply_no_underflow exState {0, 1, 2, 3} 0 5 hS hsum (by decide)
    (by decide)
